import Mathlib

/-!
Shallow embedding of the action dispatch engine of the `ratatui-experimentation`
repository: the action data model with its textual encoding and decoding
(`src/actions.rs`, `src/actions/engine_actions.rs`, `src/actions/home_action.rs`),
the multi-key keybinding resolver and the dispatch loop of `App::run`
(`src/app.rs`), and the concrete component roster (`src/components/main_menu.rs`,
`src/components/help_screen.rs`, `src/components/mode_switcher.rs`,
`src/components/home.rs`).

Rust `usize` values are modelled as `Nat` with the 64-bit bound made explicit
where saturation matters; Rust `u16` as `Nat` bounded by `65535`; Rust strings
as `String` (payloads) or `List Char` (the character-level scanning done by the
`Deserialize` implementation).  Fallible Rust code (`Result`) is modelled with
`Except String`; a Rust panic is modelled as a distinguished `panicked` outcome.
-/

namespace RatApp

/-- `Mode` from `src/app.rs` (the dispatch loop's mode enum). -/
inductive Mode where
  | MainMenu
  | Home
deriving DecidableEq

/-- `ListNavDirection` from `src/actions/home_action.rs`. -/
inductive ListNavDirection where
  | Left
  | Right
  | Up
  | Down
deriving DecidableEq

/-- `HomeAction` from `src/actions/home_action.rs`.  `usize` payloads are `Nat`. -/
inductive HomeAction where
  | Help
  | ToggleShowHelp
  | ScheduleIncrement
  | ScheduleDecrement
  | Increment (n : Nat)
  | Decrement (n : Nat)
  | CompleteInput (s : String)
  | EnterNormal
  | EnterInsert
  | EnterProcessing
  | ExitProcessing
  | Update
  | NavigateList (d : ListNavDirection)
deriving DecidableEq

/-- `EngineAction` from `src/actions/engine_actions.rs`, together with the
`ChangeMode` and `ToggleShowModeSwitcher` variants that `src/app.rs` and
`src/components/mode_switcher.rs` match on (the repository is mid-refactor;
those two variants are used by the dispatch loop, so they belong to the
engine-action family it processes). -/
inductive EngineAction where
  | Tick
  | Render
  | Resize (w h : Nat)
  | Suspend
  | Resume
  | Quit
  | Refresh
  | ToggleShowHelp
  | ToggleShowModeSwitcher
  | ChangeMode (m : Mode)
  | Error (msg : String)
deriving DecidableEq

/-- `Action` from `src/actions.rs`: the namespaced union of the two families. -/
inductive Action where
  | Engine (e : EngineAction)
  | Home (h : HomeAction)
deriving DecidableEq

/-- Raw key events (`crossterm::event::KeyEvent`), abstracted to the payloads
the keybinding resolver compares for equality. -/
inductive Key where
  | char (c : Char)
  | esc
  | enter
  | other (n : Nat)
deriving DecidableEq

/-- A per-mode keybinding table: `HashMap<Vec<KeyEvent>, Action>` modelled as
an association list with exact-match lookup (`HashMap::get`). -/
abbrev Keymap : Type := List (List Key × Action)

/-- Exact-match lookup in a keybinding table (`keymap.get(&seq)`). -/
def lookupSeq (km : Keymap) (s : List Key) : Option Action :=
  match km with
  | [] => none
  | (seq, a) :: rest => if seq = s then some a else lookupSeq rest s

/-- `config.keybindings`: `HashMap<Mode, Keymap>` as an association list. -/
abbrev Config : Type := List (Mode × Keymap)

/-- `self.config.keybindings.get(&self.mode)`. -/
def configGet (cfg : Config) (m : Mode) : Option Keymap :=
  match cfg with
  | [] => none
  | (m', km) :: rest => if m' = m then some km else configGet rest m

/-- The `tui::Event::Key` arm of `App::run` (src/app.rs lines 82-99): the
multi-key keybinding resolver.  `buf` is `self.last_tick_key_events`.
Returns the actions sent on the bus for this key together with the new buffer.
A single-key match sends the action without touching the buffer; otherwise the
key is pushed and the whole buffer is looked up; on a buffer match the action
is sent but the buffer is NOT cleared (only the `Tick` arm drains it). -/
def resolveKeyEvent (km : Keymap) (buf : List Key) (k : Key) : List Action × List Key :=
  match lookupSeq km [k] with
  | some a => ([a], buf)
  | none =>
    let buf' := buf ++ [k]
    match lookupSeq km buf' with
    | some a => ([a], buf')
    | none => ([], buf')

/-- Feed a list of key events through the resolver, accumulating the emitted
actions (no intervening `Tick`). -/
def feedKeys (km : Keymap) (buf : List Key) (ks : List Key) : List Action × List Key :=
  match ks with
  | [] => ([], buf)
  | k :: rest =>
    let (acts, buf') := resolveKeyEvent km buf k
    let (acts', buf'') := feedKeys km buf' rest
    (acts ++ acts', buf'')

/-- Modelled from the spec: the resolver policy of spec §4.3 step 3 ("discard
only the oldest key in the buffer and retry matching with the shortened buffer
against the new key, otherwise remain `Pending`"), used to compare the claimed
policy with the implementation's behaviour.  After appending the incoming key,
`specResolveGo` matches the buffer; if it is not even a prefix of a configured
sequence it discards the oldest key and retries. -/
def specIsPrefixOfSome (km : Keymap) (b : List Key) : Bool :=
  km.any (fun p => b.isPrefixOf p.1)

/-- Modelled from the spec: the retry loop of the spec's resolver policy. -/
def specResolveGo (km : Keymap) (b : List Key) : List Action × List Key :=
  match lookupSeq km b with
  | some a => ([a], [])
  | none =>
    if specIsPrefixOfSome km b then ([], b)
    else
      match b with
      | [] => ([], [])
      | _ :: b' => specResolveGo km b'

/-- Modelled from the spec: one resolver step under the spec §4.3 policy. -/
def specResolveKey (km : Keymap) (buf : List Key) (k : Key) : List Action × List Key :=
  specResolveGo km (buf ++ [k])

/-- The loop-owned state of `App::run` (src/app.rs): `mode`, `should_quit`,
`should_suspend` and `last_tick_key_events` (the resolver's pending-key
buffer). -/
structure LoopState where
  mode : Mode
  shouldQuit : Bool
  shouldSuspend : Bool
  buffer : List Key
deriving DecidableEq

/-- The `match engine_action` arm of the drain loop (src/app.rs lines 113-144):
the effect of one dequeued action on the loop-owned state.  `Resize`/`Render`
only trigger drawing (handled separately); domain actions leave the loop state
untouched. -/
def engineApply (a : Action) (st : LoopState) : LoopState :=
  match a with
  | Action.Engine ea =>
    match ea with
    | EngineAction.Tick => { st with buffer := [] }
    | EngineAction.ChangeMode m => { st with mode := m }
    | EngineAction.Quit => { st with shouldQuit := true }
    | EngineAction.Suspend => { st with shouldSuspend := true }
    | EngineAction.Resume => { st with shouldSuspend := false }
    | _ => st
  | _ => st

/-- The `Error` actions sent while drawing every component during a `Resize`
or `Render` arm: `action_tx.send(EngineAction::Error(format!("Failed to draw:
...")))` for each component whose `draw` fails (src/app.rs lines 122-142).
`drawC` is the component's `draw`, abstracted to its error outcome. -/
def drawErrs {σ : Type} (drawC : σ → Except String Unit) (comps : List σ) : List Action :=
  comps.filterMap (fun c =>
    match drawC c with
    | Except.error e => some (Action.Engine (EngineAction.Error ("Failed to draw: " ++ e)))
    | Except.ok _ => none)

/-- The update fan-out of the drain loop (src/app.rs lines 147-151): every
component's `update` is called in registration order; each returned follow-up
action is sent on the bus; a failing `update` propagates through `?` and
aborts `App::run`. -/
def fanout {σ : Type} (upd : σ → Action → Except String (σ × Option Action)) :
    List σ → Action → Except String (List σ × List Action)
  | [], _ => Except.ok ([], [])
  | c :: cs, a => do
    let (c', fu) ← upd c a
    let (cs', fus) ← fanout upd cs a
    Except.ok (c' :: cs', fu.toList ++ fus)

/-- Processing of one dequeued action by the drain loop: apply it to the loop
state, draw on `Resize`/`Render` (collecting `Error` actions of failed draws),
then fan it out to every component's `update`.  The returned action list holds
everything this step enqueued on the bus, in send order (draw errors first,
then update follow-ups in registration order). -/
def processAction {σ : Type} (upd : σ → Action → Except String (σ × Option Action))
    (drawC : σ → Except String Unit) (st : LoopState) (comps : List σ) (a : Action) :
    Except String (LoopState × List σ × List Action) :=
  let st' := engineApply a st
  let errs :=
    match a with
    | Action.Engine EngineAction.Render => drawErrs drawC comps
    | Action.Engine (EngineAction.Resize _ _) => drawErrs drawC comps
    | _ => []
  match fanout upd comps a with
  | Except.error e => Except.error e
  | Except.ok (comps', fus) => Except.ok (st', comps', errs ++ fus)

/-- Outcome of draining the action bus (`while let Ok(action) =
action_rx.try_recv()`): either the queue was emptied (with the final loop
state, component states, the actions processed in order, and every action
enqueued during the drain), or a component's `update` failed and `App::run`
aborted, or the fuel ran out (the real loop would still be draining). -/
inductive DrainOut (σ : Type) where
  | ok (st : LoopState) (comps : List σ) (processed enqueued : List Action)
  | fail (msg : String)
  | outOfFuel
deriving DecidableEq

/-- The drain loop of `App::run` (src/app.rs lines 109-152): dequeue actions
until the bus is empty; every action enqueued while processing (draw errors
and update follow-ups) is appended to the queue and drained in the same pass. -/
def drainG {σ : Type} (upd : σ → Action → Except String (σ × Option Action))
    (drawC : σ → Except String Unit) :
    Nat → LoopState → List σ → List Action → DrainOut σ
  | _, st, comps, [] => DrainOut.ok st comps [] []
  | 0, _, _, _ :: _ => DrainOut.outOfFuel
  | fuel + 1, st, comps, a :: rest =>
    match processAction upd drawC st comps a with
    | Except.error e => DrainOut.fail e
    | Except.ok (st1, comps1, newActs) =>
      match drainG upd drawC fuel st1 comps1 (rest ++ newActs) with
      | DrainOut.ok st' comps' proc enq =>
        DrainOut.ok st' comps' (a :: proc) (newActs ++ enq)
      | DrainOut.fail e => DrainOut.fail e
      | DrainOut.outOfFuel => DrainOut.outOfFuel

/-- The suspend handling after the drain (src/app.rs lines 153-161): when
`should_suspend` is set the loop suspends the terminal and sends a `Resume`
action — at that point the bus is empty, so `Resume` is the sole queued
action entering the next iteration. -/
def suspendStep (st : LoopState) : List Action :=
  if st.shouldSuspend then [Action.Engine EngineAction.Resume] else []

/-- Terminal events from the `tui` event source (spec §6), as matched by
`App::run` lines 77-101. -/
inductive Event where
  | Quit
  | Tick
  | Render
  | Resize (w h : Nat)
  | Key (k : Key)
deriving DecidableEq

/-- The event phase of one loop iteration (src/app.rs lines 77-101): map the
terminal event to the actions sent on the bus, resolving `Key` events through
the active mode's keybinding table (which also updates the pending-key
buffer).  The `handle_events` fan-out is omitted: none of the registered
components (`MainMenu`, `HelpScreen`, `ModeSwitcher`) overrides raw-event
handling, so it sends nothing. -/
def eventStep (cfg : Config) (st : LoopState) (e : Event) : LoopState × List Action :=
  match e with
  | Event.Quit => (st, [Action.Engine EngineAction.Quit])
  | Event.Tick => (st, [Action.Engine EngineAction.Tick])
  | Event.Render => (st, [Action.Engine EngineAction.Render])
  | Event.Resize w h => (st, [Action.Engine (EngineAction.Resize w h)])
  | Event.Key k =>
    match configGet cfg st.mode with
    | none => (st, [])
    | some km =>
      let (acts, buf) := resolveKeyEvent km st.buffer k
      ({ st with buffer := buf }, acts)

/-- Net effect on the active mode of processing a list of actions in order:
only `ChangeMode` writes `self.mode`. -/
def modeFold (acts : List Action) (m0 : Mode) : Mode :=
  acts.foldl (fun m a =>
    match a with
    | Action.Engine (EngineAction.ChangeMode m') => m'
    | _ => m) m0

/-- `LIST_OPS.len()`: the lazy-static map in `src/components/main_menu.rs` and
`src/components/home.rs` holds four entries. -/
def LIST_OPS_LEN : Nat := 4

/-- `MainMenuTabs::navigate_list` (src/components/main_menu.rs lines 34-44). -/
def navigateTabs (dir : ListNavDirection) (idx : Nat) : Nat :=
  match dir, idx with
  | ListNavDirection.Left, 0 => LIST_OPS_LEN - 1
  | ListNavDirection.Left, i + 1 => i
  | ListNavDirection.Right, i => if i = LIST_OPS_LEN - 1 then 0 else i + 1
  | _, _ => idx

/-- The private state of `MainMenu` (src/components/main_menu.rs): the keymap
and action sender are configuration handles, not behavioural state. -/
structure MainMenuState where
  showHelp : Bool
  itemIndex : Nat
  isItemSelected : Bool
deriving DecidableEq

/-- `MainMenu::update`: reacts only to `NavigateList` (the file still uses the
flat `crate::action::Action`, whose `NavigateList` corresponds to
`Home.NavigateList` in the namespaced family); always returns no follow-up. -/
def mainMenuUpdate (s : MainMenuState) (a : Action) : MainMenuState × Option Action :=
  match a with
  | Action.Home (HomeAction.NavigateList dir) =>
    ({ s with itemIndex := navigateTabs dir s.itemIndex }, none)
  | _ => (s, none)

/-- The private state of `HelpScreen` (src/components/help_screen.rs); the
`config` and table state only affect drawing. -/
structure HelpScreenState where
  showHelp : Bool
  watchedModes : List Mode
deriving DecidableEq

/-- `HelpScreen::update` (src/components/help_screen.rs lines 103-109). -/
def helpScreenUpdate (s : HelpScreenState) (a : Action) : HelpScreenState × Option Action :=
  if a = Action.Engine EngineAction.ToggleShowHelp then
    ({ s with showHelp := !s.showHelp }, none)
  else (s, none)

/-- `MODES` from `src/components/mode_switcher.rs`. -/
def MODES : List Mode := [Mode.MainMenu, Mode.Home]

/-- The private state of `ModeSwitcher` (src/components/mode_switcher.rs);
`mode_list_state` mirrors `current_index` and only affects drawing. -/
structure ModeSwitcherState where
  showMenu : Bool
  currentIndex : Nat
deriving DecidableEq

/-- `ModeSwitcher::select_mode` (src/components/mode_switcher.rs lines 33-44):
`checked_add_signed` yields `None` (no state change, no action) on underflow,
otherwise the index is clamped to the mode list and a `ChangeMode` follow-up
is returned. -/
def selectMode (s : ModeSwitcherState) (offset : Int) : ModeSwitcherState × Option Action :=
  let ni : Int := (s.currentIndex : Int) + offset
  if ni < 0 then (s, none)
  else
    let idx := min ni.toNat (MODES.length - 1)
    ({ s with currentIndex := idx },
      (MODES.get? idx).map (fun m => Action.Engine (EngineAction.ChangeMode m)))

/-- `ModeSwitcher::update` (src/components/mode_switcher.rs lines 77-92). -/
def modeSwitcherUpdate (s : ModeSwitcherState) (a : Action) : ModeSwitcherState × Option Action :=
  match a with
  | Action.Home (HomeAction.NavigateList ListNavDirection.Up) => selectMode s (-1)
  | Action.Home (HomeAction.NavigateList ListNavDirection.Down) => selectMode s 1
  | Action.Engine EngineAction.ToggleShowModeSwitcher => ({ s with showMenu := !s.showMenu }, none)
  | _ => (s, none)

/-- The component roster registered by `App::new` (src/app.rs line 47):
`MainMenu`, `HelpScreen`, `ModeSwitcher` — `Home` and the FPS counter are
constructed but not registered. -/
inductive Comp where
  | mainMenu (s : MainMenuState)
  | helpScreen (s : HelpScreenState)
  | modeSwitcher (s : ModeSwitcherState)
deriving DecidableEq

/-- Dispatch of `update` over the concrete roster; all three implementations
are total (`Ok(...)` on every path). -/
def updateComp (c : Comp) (a : Action) : Comp × Option Action :=
  match c with
  | Comp.mainMenu s =>
    let (s', fu) := mainMenuUpdate s a
    (Comp.mainMenu s', fu)
  | Comp.helpScreen s =>
    let (s', fu) := helpScreenUpdate s a
    (Comp.helpScreen s', fu)
  | Comp.modeSwitcher s =>
    let (s', fu) := modeSwitcherUpdate s a
    (Comp.modeSwitcher s', fu)

/-- The concrete roster's `update` lifted to the fallible interface used by
the dispatch loop (none of the three implementations can fail). -/
def updateCompE (c : Comp) (a : Action) : Except String (Comp × Option Action) :=
  Except.ok (updateComp c a)

/-- The concrete roster's `draw`: all three implementations end in `Ok(())`. -/
def drawCompE (_ : Comp) : Except String Unit := Except.ok ()

/-- The drain loop instantiated with the concrete roster. -/
def drainC : Nat → LoopState → List Comp → List Action → DrainOut Comp :=
  drainG updateCompE drawCompE

/-- `USIZE_MAX`: the saturation bound of Rust `usize` arithmetic (64-bit). -/
def USIZE_MAX : Nat := 2 ^ 64 - 1

/-- `usize::saturating_add` on the `Nat` model. -/
def satAdd (a b : Nat) : Nat := min (a + b) USIZE_MAX

/-- `Mode` from `src/components/home.rs` (the Home screen's cursor mode). -/
inductive HomeMode where
  | Normal
  | Insert
  | Processing
deriving DecidableEq

/-- The private state of `Home` (src/components/home.rs); the input widget,
action sender and keymap are configuration/rendering concerns and do not
affect the arithmetic the update handles perform. -/
structure HomeState where
  counter : Nat
  appTicker : Nat
  renderTicker : Nat
  mode : HomeMode
  text : List String
  todoOpIndex : Nat
deriving DecidableEq

/-- `Home::increment` (src/components/home.rs line 91-93):
`self.counter.saturating_add(i)`. -/
def homeIncrement (s : HomeState) (i : Nat) : HomeState :=
  { s with counter := satAdd s.counter i }

/-- `Home::decrement` (src/components/home.rs line 95-97):
`self.counter.saturating_sub(i)` — `Nat` subtraction is saturating. -/
def homeDecrement (s : HomeState) (i : Nat) : HomeState :=
  { s with counter := s.counter - i }

/-- `Home::navigate_list` (src/components/home.rs lines 99-110). -/
def homeNavigateList (s : HomeState) (dir : ListNavDirection) : HomeState :=
  if s.mode = HomeMode.Normal then
    match dir, s.todoOpIndex with
    | ListNavDirection.Left, 0 => { s with todoOpIndex := LIST_OPS_LEN - 1 }
    | ListNavDirection.Left, i + 1 => { s with todoOpIndex := i }
    | ListNavDirection.Right, i =>
      { s with todoOpIndex := if i = LIST_OPS_LEN - 1 then 0 else i + 1 }
    | _, _ => s
  else s

/-- `Home::update` (src/components/home.rs lines 165-198).  The
`ScheduleIncrement`/`ScheduleDecrement` arms spawn a background task that
sends actions later; they leave the component state unchanged.  `Home::tick`
and `Home::render_tick` saturating-increment the tickers.  Every path returns
`Ok(None)`. -/
def homeUpdate (s : HomeState) (a : Action) : HomeState × Option Action :=
  match a with
  | Action.Engine ea =>
    match ea with
    | EngineAction.Tick => ({ s with appTicker := satAdd s.appTicker 1 }, none)
    | EngineAction.Render => ({ s with renderTicker := satAdd s.renderTicker 1 }, none)
    | _ => (s, none)
  | Action.Home ha =>
    match ha with
    | HomeAction.ScheduleIncrement => (s, none)
    | HomeAction.ScheduleDecrement => (s, none)
    | HomeAction.Increment i => (homeIncrement s i, none)
    | HomeAction.Decrement i => (homeDecrement s i, none)
    | HomeAction.CompleteInput t => ({ s with text := s.text ++ [t] }, none)
    | HomeAction.EnterNormal => ({ s with mode := HomeMode.Normal }, none)
    | HomeAction.EnterInsert => ({ s with mode := HomeMode.Insert }, none)
    | HomeAction.EnterProcessing => ({ s with mode := HomeMode.Processing }, none)
    | HomeAction.NavigateList dir => (homeNavigateList s dir, none)
    | HomeAction.ExitProcessing => ({ s with mode := HomeMode.Normal }, none)
    | _ => (s, none)

/-- Decimal digit character for `d < 10`. -/
def digitChar (d : Nat) : Char := Char.ofNat (48 + d)

/-- Numeric value of a decimal digit character. -/
def digitVal (c : Char) : Nat := c.toNat - 48

/-- Whether a character is a decimal ASCII digit. -/
def isDigit (c : Char) : Bool := decide (48 ≤ c.toNat) && decide (c.toNat ≤ 57)

/-- Fuel-indexed worker for decimal rendering; `n < fuel` always holds at the
call sites, and each step divides `n` by ten. -/
def natToCharsFuel : Nat → Nat → List Char
  | 0, _ => []
  | f + 1, n =>
    if n < 10 then [digitChar n]
    else natToCharsFuel f (n / 10) ++ [digitChar (n % 10)]

/-- Decimal rendering of a natural number (Rust's `Display` for unsigned
integers). -/
def natToChars (n : Nat) : List Char :=
  natToCharsFuel (n + 1) n

/-- `str::parse::<u16>()` on a character list: at least one character, all
decimal digits, value within `u16` range (sign prefixes never occur in the
encoded forms considered here). -/
def parseU16 (cs : List Char) : Option Nat :=
  if cs = [] then none
  else if cs.all isDigit then
    let v := cs.foldl (fun acc c => 10 * acc + digitVal c) 0
    if v ≤ 65535 then some v else none
  else none

/-- `str::starts_with` on character lists. -/
def isPre : List Char → List Char → Bool
  | [], _ => true
  | _ :: _, [] => false
  | c :: p, d :: s => c == d && isPre p s

/-- First occurrence of `sep` in `s`: the characters before it and the
characters after it (the splitting primitive behind `str::split`). -/
def findSplit (sep : List Char) (s : List Char) : Option (List Char × List Char) :=
  if isPre sep s then some ([], s.drop sep.length)
  else
    match s with
    | [] => none
    | c :: rest => (findSplit sep rest).map (fun pr => (c :: pr.1, pr.2))

/-- `s.split(sep).nth(1).unwrap_or_default()`: the segment between the first
and second occurrence of `sep` (up to the end if `sep` occurs once), or the
empty string if `sep` does not occur. -/
def splitNth1 (sep s : List Char) : List Char :=
  match findSplit sep s with
  | none => []
  | some (_, after) =>
    match findSplit sep after with
    | none => after
    | some (b2, _) => b2

/-- Fuel-indexed worker for `str::trim_start_matches`: repeatedly strip a
leading occurrence of `sep`.  Each step removes at least one character, so
`s.length` steps always suffice. -/
def trimStartSeqFuel : Nat → List Char → List Char → List Char
  | 0, _, s => s
  | f + 1, sep, s =>
    if sep ≠ [] ∧ isPre sep s = true then trimStartSeqFuel f sep (s.drop sep.length) else s

/-- `str::trim_start_matches(sep)`. -/
def trimStartSeq (sep s : List Char) : List Char :=
  trimStartSeqFuel s.length sep s

/-- `str::trim_end_matches(c)`: remove every trailing occurrence of `c`. -/
def trimEndMatches (c : Char) (s : List Char) : List Char :=
  (s.reverse.dropWhile (fun d => d == c)).reverse

/-- ASCII whitespace test used by `str::trim`. -/
def isWhite (c : Char) : Bool := c == ' ' || c == '\t' || c == '\n' || c == '\r'

/-- `str::trim`. -/
def trimSpaces (s : List Char) : List Char :=
  ((s.dropWhile isWhite).reverse.dropWhile isWhite).reverse

/-- `str::split` on a character predicate (Rust yields the segments between
separator characters, including empty ones). -/
def splitOnPred (p : Char → Bool) : List Char → List (List Char)
  | [] => [[]]
  | c :: rest =>
    if p c then [] :: splitOnPred p rest
    else
      match splitOnPred p rest with
      | [] => [[c]]
      | x :: xs => (c :: x) :: xs

/-- Rust `Debug` rendering of a `String`: surrounding quotes, with quotes and
backslashes escaped (other escapes do not occur in the messages considered
here). -/
def rustDebugStr (cs : List Char) : List Char :=
  '"' :: (cs.foldr (fun c acc =>
    if c = '"' ∨ c = '\\' then '\\' :: c :: acc else c :: acc) ['"'])

/-- `Debug` names of `Mode` (used by the `{:?}` fallback of `Display`). -/
def modeDebug (m : Mode) : List Char :=
  match m with
  | Mode.MainMenu => "MainMenu".data
  | Mode.Home => "Home".data

/-- `Debug` names of `ListNavDirection`. -/
def dirDebug (d : ListNavDirection) : List Char :=
  match d with
  | ListNavDirection.Left => "Left".data
  | ListNavDirection.Right => "Right".data
  | ListNavDirection.Up => "Up".data
  | ListNavDirection.Down => "Down".data

/-- `impl Display for EngineAction` (src/actions/engine_actions.rs lines
18-26): `Resize` and `Error` have explicit formats (`Error` renders its
message with `{:?}`, i.e. quoted); every other variant falls back to its
`Debug` name. -/
def encodeEngine : EngineAction → List Char
  | EngineAction.Tick => "Tick".data
  | EngineAction.Render => "Render".data
  | EngineAction.Resize w h =>
    "Resize(".data ++ (natToChars w ++ (", ".data ++ (natToChars h ++ [')'])))
  | EngineAction.Suspend => "Suspend".data
  | EngineAction.Resume => "Resume".data
  | EngineAction.Quit => "Quit".data
  | EngineAction.Refresh => "Refresh".data
  | EngineAction.ToggleShowHelp => "ToggleShowHelp".data
  | EngineAction.ToggleShowModeSwitcher => "ToggleShowModeSwitcher".data
  | EngineAction.ChangeMode m => "ChangeMode(".data ++ (modeDebug m ++ [')'])
  | EngineAction.Error msg => "Error(".data ++ (rustDebugStr msg.data ++ [')'])

/-- `impl Display for HomeAction` (src/actions/home_action.rs lines 45-55):
`Increment`/`Decrement`/`CompleteInput` are parenthesized; `NavigateList`
renders as `NavigateList.{direction:?}` (dot, not parentheses); the rest fall
back to their `Debug` names. -/
def encodeHome : HomeAction → List Char
  | HomeAction.Help => "Help".data
  | HomeAction.ToggleShowHelp => "ToggleShowHelp".data
  | HomeAction.ScheduleIncrement => "ScheduleIncrement".data
  | HomeAction.ScheduleDecrement => "ScheduleDecrement".data
  | HomeAction.Increment n => "Increment(".data ++ (natToChars n ++ [')'])
  | HomeAction.Decrement n => "Decrement(".data ++ (natToChars n ++ [')'])
  | HomeAction.CompleteInput s => "CompleteInput(".data ++ (s.data ++ [')'])
  | HomeAction.EnterNormal => "EnterNormal".data
  | HomeAction.EnterInsert => "EnterInsert".data
  | HomeAction.EnterProcessing => "EnterProcessing".data
  | HomeAction.ExitProcessing => "ExitProcessing".data
  | HomeAction.Update => "Update".data
  | HomeAction.NavigateList d => "NavigateList.".data ++ dirDebug d

/-- `impl Display for Action` (src/actions.rs lines 31-38). -/
def encodeAction : Action → List Char
  | Action.Engine e => "Engine.".data ++ encodeEngine e
  | Action.Home h => "Home.".data ++ encodeHome h

/-- Outcome of `Action::deserialize` on a string: a parsed action, a
`de::Error` with its message, or a Rust panic (out-of-bounds index). -/
inductive DecodeResult where
  | ok (a : Action)
  | err (msg : String)
  | panicked (msg : String)
deriving DecidableEq

/-- The `Engine.`-family arm of the `Action` visitor (src/actions.rs lines
62-89), applied to `substr = value.split("Engine.").nth(1).unwrap_or_default()`. -/
def decodeEngine (substr value : List Char) : DecodeResult :=
  if substr = "Tick".data then DecodeResult.ok (Action.Engine EngineAction.Tick)
  else if substr = "Render".data then DecodeResult.ok (Action.Engine EngineAction.Render)
  else if substr = "Suspend".data then DecodeResult.ok (Action.Engine EngineAction.Suspend)
  else if substr = "Resume".data then DecodeResult.ok (Action.Engine EngineAction.Resume)
  else if substr = "Quit".data then DecodeResult.ok (Action.Engine EngineAction.Quit)
  else if substr = "Refresh".data then DecodeResult.ok (Action.Engine EngineAction.Refresh)
  else if substr = "ToggleShowHelp".data then
    DecodeResult.ok (Action.Engine EngineAction.ToggleShowHelp)
  else if isPre "Error(".data substr then
    DecodeResult.ok (Action.Engine (EngineAction.Error
      (String.mk (trimEndMatches ')' (trimStartSeq "Error(".data substr)))))
  else if isPre "Resize(".data substr then
    let parts := splitOnPred (fun c => c == ',') (trimEndMatches ')' (trimStartSeq "Resize(".data substr))
    if parts.length = 2 then
      match parseU16 (trimSpaces (parts.getD 0 [])), parseU16 (trimSpaces (parts.getD 1 [])) with
      | some w, some h => DecodeResult.ok (Action.Engine (EngineAction.Resize w h))
      | _, _ => DecodeResult.err "invalid digit found in string"
    else DecodeResult.err (String.mk ("Invalid Resize format: ".data ++ value))
  else DecodeResult.err (String.mk ("Unknown EngineAction variant: ".data ++ value))

/-- The `Home.`-family arm of the `Action` visitor (src/actions.rs lines
90-113).  In the `NavigateList` arm the code indexes `parts[1]` without a
bounds check: when the input has no parenthesis, `split(&['(', ')'])` yields a
single segment and the indexing panics. -/
def decodeHome (substr value : List Char) : DecodeResult :=
  if substr = "Help".data then DecodeResult.ok (Action.Home HomeAction.Help)
  else if substr = "ScheduleIncrement".data then
    DecodeResult.ok (Action.Home HomeAction.ScheduleIncrement)
  else if substr = "ScheduleDecrement".data then
    DecodeResult.ok (Action.Home HomeAction.ScheduleDecrement)
  else if substr = "ToggleShowHelp".data then
    DecodeResult.ok (Action.Home HomeAction.ToggleShowHelp)
  else if substr = "EnterInsert".data then DecodeResult.ok (Action.Home HomeAction.EnterInsert)
  else if substr = "EnterNormal".data then DecodeResult.ok (Action.Home HomeAction.EnterNormal)
  else if isPre "NavigateList".data substr then
    let parts := splitOnPred (fun c => c == '(' || c == ')') substr
    match parts.get? 1 with
    | none => DecodeResult.panicked "index out of bounds: the len is 1 but the index is 1"
    | some p =>
      if p = "Left".data then DecodeResult.ok (Action.Home (HomeAction.NavigateList ListNavDirection.Left))
      else if p = "Right".data then DecodeResult.ok (Action.Home (HomeAction.NavigateList ListNavDirection.Right))
      else if p = "Up".data then DecodeResult.ok (Action.Home (HomeAction.NavigateList ListNavDirection.Up))
      else if p = "Down".data then DecodeResult.ok (Action.Home (HomeAction.NavigateList ListNavDirection.Down))
      else DecodeResult.err (String.mk ("Unexpected list navigation direction in config: ".data ++ p))
  else DecodeResult.err (String.mk ("Unknown HomeAction variant: ".data ++ value))

/-- `Action::deserialize`'s `visit_str` (src/actions.rs lines 57-116). -/
def decode (value : List Char) : DecodeResult :=
  if isPre "Engine.".data value then decodeEngine (splitNth1 "Engine.".data value) value
  else if isPre "Home.".data value then decodeHome (splitNth1 "Home.".data value) value
  else DecodeResult.err (String.mk ("Unknown Action variant: ".data ++ value))

/-- The `g` key and the keymap of the spec's two-key chord scenario:
`[Char('g'), Char('g')] → Home.EnterNormal` in mode `Home`. -/
def keyG : Key := Key.char 'g'

/-- A key bound by nothing in the chord scenario's keymap. -/
def keyX : Key := Key.char 'x'

/-- The chord scenario's keybinding table. -/
def kmChord : Keymap := [([keyG, keyG], Action.Home HomeAction.EnterNormal)]

/-- The chord scenario's configuration: the table is registered for mode
`Home`. -/
def cfgChord : Config := [(Mode.Home, kmChord)]

/-- Keys of the prefix-distinguishable counterexample configurations. -/
def keyA : Key := Key.char 'a'

/-- Second key of the counterexample chords. -/
def keyB : Key := Key.char 'b'

/-- Third key of the bound-prefix counterexample chord. -/
def keyC : Key := Key.char 'c'

/-- The chord action of the counterexample configurations. -/
def actA : Action := Action.Home HomeAction.EnterNormal

/-- The competing shorter binding's action. -/
def actC : Action := Action.Home HomeAction.EnterInsert

/-- A prefix-distinguishable table in which the chord's second key is itself
bound as a single key: `[a, b] → actA` and `[b] → actC`. -/
def kmMid : Keymap := [([keyA, keyB], actA), ([keyB], actC)]

/-- A table in which a proper (multi-key) prefix of the chord is itself
bound: `[a, b, c] → actA` and `[a, b] → actC`. -/
def kmPre : Keymap := [([keyA, keyB, keyC], actA), ([keyA, keyB], actC)]

/-- A fresh loop state (`App::new`: mode `MainMenu`, no flags, empty buffer). -/
def demoState : LoopState := ⟨Mode.MainMenu, false, false, []⟩

/-- A demonstration component (state: a counter) whose `update` returns a
`Quit` follow-up the first time it processes `Refresh` — used to exhibit a
cascading action drained within one pass. -/
def demoUpd (n : Nat) (a : Action) : Except String (Nat × Option Action) :=
  Except.ok (n + 1,
    if n = 0 ∧ a = Action.Engine EngineAction.Refresh
    then some (Action.Engine EngineAction.Quit) else none)

/-- A draw that always succeeds (for the demonstration component). -/
def demoDraw (_ : Nat) : Except String Unit := Except.ok ()

/-- A component whose `update` always fails — exhibits the `?` propagation in
the update fan-out. -/
def failUpd (_ : Unit) (_ : Action) : Except String (Unit × Option Action) :=
  Except.error "update failed"

/-- A component whose `update` always succeeds without follow-up. -/
def okUpd (u : Unit) (_ : Action) : Except String (Unit × Option Action) :=
  Except.ok (u, none)

/-- A component whose `draw` always fails — exhibits the draw-error
conversion in the `Render`/`Resize` arms. -/
def failDraw (_ : Unit) : Except String Unit := Except.error "boom"

/-- The variants of the decoder's textual grammar whose encoding carries no
numeric argument (every `Engine.`/`Home.` name the decoder recognises except
`Error`, `Resize` and `NavigateList`). -/
def grammarPlain : List Action :=
  [Action.Engine EngineAction.Tick,
   Action.Engine EngineAction.Render,
   Action.Engine EngineAction.Suspend,
   Action.Engine EngineAction.Resume,
   Action.Engine EngineAction.Quit,
   Action.Engine EngineAction.Refresh,
   Action.Engine EngineAction.ToggleShowHelp,
   Action.Home HomeAction.Help,
   Action.Home HomeAction.ScheduleIncrement,
   Action.Home HomeAction.ScheduleDecrement,
   Action.Home HomeAction.ToggleShowHelp,
   Action.Home HomeAction.EnterInsert,
   Action.Home HomeAction.EnterNormal]

section Theorems

/-! ### Shared helper lemmas -/

/-- Every concrete component ignores an action that is not `ToggleShowHelp`,
`ToggleShowModeSwitcher` or `NavigateList`: state unchanged, no follow-up. -/
theorem updateComp_ignores (c : Comp) (a : Action)
    (h1 : a ≠ Action.Engine EngineAction.ToggleShowHelp)
    (h2 : a ≠ Action.Engine EngineAction.ToggleShowModeSwitcher)
    (h3 : ∀ d, a ≠ Action.Home (HomeAction.NavigateList d)) :
    updateComp c a = (c, none) := by
  cases c with
  | mainMenu s =>
    cases a with
    | Engine e => rfl
    | Home h =>
      cases h with
      | NavigateList d => exact absurd rfl (h3 d)
      | _ => rfl
  | helpScreen s =>
    simp only [updateComp, helpScreenUpdate]
    rw [if_neg h1]
  | modeSwitcher s =>
    cases a with
    | Engine e =>
      cases e with
      | ToggleShowModeSwitcher => exact absurd rfl h2
      | _ => rfl
    | Home h =>
      cases h with
      | NavigateList d =>
        exact absurd rfl (h3 d)
      | _ => rfl

/-- Fan-out over components that all ignore the action: component states are
unchanged and no follow-up is enqueued. -/
theorem fanout_ignores (a : Action) (comps : List Comp)
    (h : ∀ c, updateComp c a = (c, none)) :
    fanout updateCompE comps a = Except.ok (comps, []) := by
  induction comps with
  | nil => rfl
  | cons c cs ih =>
    simp only [fanout, updateCompE, h c, ih]
    rfl

/-! ### Claim theorems -/

/-- Claim C9: processing a `Tick` action leaves the resolver's pending-key
buffer empty (`last_tick_key_events.drain(..)`), for every prior loop state —
in particular for any non-empty buffered chord — and for every roster state;
the components neither fail nor enqueue follow-ups on `Tick`. -/
theorem tick_clears_buffer (st : LoopState) (comps : List Comp) :
    processAction updateCompE drawCompE st comps (Action.Engine EngineAction.Tick) =
      Except.ok ({ st with buffer := [] }, comps, []) := by
  have h : ∀ c, updateComp c (Action.Engine EngineAction.Tick) = (c, none) := by
    intro c
    exact updateComp_ignores c _ (by simp) (by simp) (by simp)
  simp only [processAction, fanout_ignores _ _ h, engineApply]
  rfl

/-- Claim C10: `Home`'s counter arithmetic saturates and never leaves the
`usize` range: `Increment(i)` caps the sum at `usize::MAX`, `Decrement(i)`
yields `c - i` when `i ≤ c` and `0` otherwise, and no `update` whatsoever can
move the counter outside `[0, usize::MAX]`. -/
theorem home_counter_saturates (s : HomeState) (i : Nat) (hc : s.counter ≤ USIZE_MAX) :
    (homeUpdate s (Action.Home (HomeAction.Increment i))).1.counter =
      min (s.counter + i) USIZE_MAX ∧
    (homeUpdate s (Action.Home (HomeAction.Decrement i))).1.counter =
      (if i ≤ s.counter then s.counter - i else 0) ∧
    ∀ a : Action, (homeUpdate s a).1.counter ≤ USIZE_MAX := by
  refine ⟨rfl, ?_, ?_⟩
  · simp only [homeUpdate, homeDecrement]
    split <;> omega
  · intro a
    cases a with
    | Engine e => cases e <;> simpa [homeUpdate] using hc
    | Home h =>
      cases h
      case Increment i =>
        simp only [homeUpdate, homeIncrement, satAdd]
        exact Nat.min_le_right _ _
      case Decrement i =>
        simp only [homeUpdate, homeDecrement]
        omega
      case NavigateList d =>
        simp only [homeUpdate, homeNavigateList]
        split
        · split <;> simpa using hc
        · simpa using hc
      all_goals simpa [homeUpdate] using hc

/-- Witness for C10 at a concrete state. -/
theorem home_counter_saturates_witness :
    (⟨3, 0, 0, HomeMode.Normal, [], 0⟩ : HomeState).counter ≤ USIZE_MAX ∧
    (homeUpdate ⟨3, 0, 0, HomeMode.Normal, [], 0⟩
        (Action.Home (HomeAction.Increment 5))).1.counter =
      min (3 + 5) USIZE_MAX :=
  ⟨by decide, (home_counter_saturates ⟨3, 0, 0, HomeMode.Normal, [], 0⟩ 5 (by decide)).1⟩

/-- One step of `feedKeys` on a non-empty key list. -/
theorem feedKeys_cons (km : Keymap) (buf : List Key) (k : Key) (ks : List Key) :
    feedKeys km buf (k :: ks) =
      ((resolveKeyEvent km buf k).1 ++ (feedKeys km (resolveKeyEvent km buf k).2 ks).1,
        (feedKeys km (resolveKeyEvent km buf k).2 ks).2) := by
  simp only [feedKeys]

/-- The resolver when the single-key lookup hits. -/
theorem resolveKeyEvent_single (km : Keymap) (buf : List Key) (k : Key) (a : Action)
    (h : lookupSeq km [k] = some a) : resolveKeyEvent km buf k = ([a], buf) := by
  simp [resolveKeyEvent, h]

/-- The resolver when only the whole appended buffer matches. -/
theorem resolveKeyEvent_multi (km : Keymap) (buf : List Key) (k : Key) (a : Action)
    (h1 : lookupSeq km [k] = none) (h2 : lookupSeq km (buf ++ [k]) = some a) :
    resolveKeyEvent km buf k = ([a], buf ++ [k]) := by
  simp [resolveKeyEvent, h1, h2]

/-- The resolver when nothing matches: the key is appended and kept. -/
theorem resolveKeyEvent_none (km : Keymap) (buf : List Key) (k : Key)
    (h1 : lookupSeq km [k] = none) (h2 : lookupSeq km (buf ++ [k]) = none) :
    resolveKeyEvent km buf k = ([], buf ++ [k]) := by
  simp [resolveKeyEvent, h1, h2]

/-- Stepping the resolver through the remaining keys of a chord: as long as
every single-key lookup and every proper-prefix lookup misses, the buffer
grows to the full sequence, which then matches. -/
theorem feedKeys_chord_aux (km : Keymap) :
    ∀ (rest pre : List Key) (a : Action), rest ≠ [] →
      lookupSeq km (pre ++ rest) = some a →
      (∀ k ∈ rest, lookupSeq km [k] = none) →
      (∀ i < (pre ++ rest).length, 0 < i → lookupSeq km ((pre ++ rest).take i) = none) →
      feedKeys km pre rest = ([a], pre ++ rest) := by
  intro rest
  induction rest with
  | nil => intro pre a hne; exact absurd rfl hne
  | cons k rest ih =>
    intro pre a _ hfull hsingle hpfx
    cases rest with
    | nil =>
      have hk : lookupSeq km [k] = none := hsingle k (by simp)
      rw [feedKeys_cons, resolveKeyEvent_multi km pre k a hk hfull]
      simp [feedKeys]
    | cons r rs =>
      have hk : lookupSeq km [k] = none := hsingle k (by simp)
      have hbuf : lookupSeq km (pre ++ [k]) = none := by
        have htake : (pre ++ k :: r :: rs).take (pre.length + 1) = pre ++ [k] := by
          rw [List.take_append_eq_append_take, List.take_of_length_le (by omega)]
          simp
        have := hpfx (pre.length + 1)
          (by simp only [List.length_append, List.length_cons]; omega) (by omega)
        rwa [htake] at this
      have hrec := ih (pre ++ [k]) a (by simp)
        (by rwa [List.append_cons] at hfull)
        (fun k' hk' => hsingle k' (by simp [hk']))
        (by
          intro i hi h0
          have hi' : i < (pre ++ k :: r :: rs).length := by
            simp only [List.length_append, List.length_cons, List.length_nil] at hi ⊢
            omega
          have := hpfx i hi' h0
          rw [← List.append_cons]
          exact this)
      rw [feedKeys_cons, resolveKeyEvent_none km pre k hk hbuf]
      simp only [hrec]
      simp [← List.append_cons]

/-- Claim C1 as amended: feeding exactly the keys of a configured sequence
(no single-key binding firing on its later keys, no proper prefix bound, no
intervening `Tick`) emits exactly the mapped action; the buffer is empty
afterwards only for single-key bindings — a completed multi-key chord leaves
all its keys in the pending buffer until the next `Tick` drains them.  Both
restricting hypotheses are necessary, not merely convenient: the
counterexample exhibits a table where a singly-bound later key fires
mid-chord so the chord's action is never emitted, and a table where a bound
proper prefix makes the resolver emit two actions for one chord. -/
theorem resolver_chord (km : Keymap) (s : List Key) (a : Action) (hne : s ≠ [])
    (hfull : lookupSeq km s = some a)
    (hsingle : ∀ k ∈ s.tail, lookupSeq km [k] = none)
    (hpfx : ∀ i < s.length, 0 < i → lookupSeq km (s.take i) = none) :
    feedKeys km [] s = ([a], if s.length = 1 then [] else s) := by
  cases s with
  | nil => exact absurd rfl hne
  | cons k rest =>
    cases rest with
    | nil =>
      rw [feedKeys_cons, resolveKeyEvent_single km [] k a hfull]
      simp [feedKeys]
    | cons r rs =>
      have hk : lookupSeq km [k] = none := by
        have := hpfx 1 (by simp) (by omega)
        simpa using this
      have hrec := feedKeys_chord_aux km (r :: rs) [k] a (by simp)
        (by simpa using hfull)
        (by simpa using hsingle)
        (by simpa using hpfx)
      have hres : resolveKeyEvent km [] k = ([], [k]) :=
        resolveKeyEvent_none km [] k hk (by simpa using hk)
      rw [feedKeys_cons, hres]
      simp only [hrec]
      simp

/-- Witness for the amended C1 at the spec's two-key chord scenario. -/
theorem resolver_chord_witness :
    feedKeys kmChord [] [keyG, keyG] =
      ([Action.Home HomeAction.EnterNormal],
        if ([keyG, keyG] : List Key).length = 1 then [] else [keyG, keyG]) :=
  resolver_chord kmChord [keyG, keyG] (Action.Home HomeAction.EnterNormal)
    (by decide) (by decide) (by decide) (by decide)

/-- Counterexample to C1 as stated, refuting each of its parts on a concrete
configured pair.  (1) Buffer: in the two-key chord scenario (`[g, g] →
Home.EnterNormal` in mode `Home`), feeding exactly the chord emits exactly
the action but leaves both keys in the pending buffer — the resolver is not
back to `Idle`.  (2) Emission: in the prefix-distinguishable table
`[a, b] → actA`, `[b] → actC`, feeding exactly `[a, b]` emits `actC` (the
single-key-first check fires the shorter binding mid-chord) and never emits
the configured `actA`.  (3) Emission: in the table `[a, b, c] → actA`,
`[a, b] → actC`, feeding exactly `[a, b, c]` emits both `actC` and `actA`,
not exactly `actA`. -/
theorem resolver_chord_cex :
    (configGet cfgChord Mode.Home = some kmChord ∧
      lookupSeq kmChord [keyG, keyG] = some (Action.Home HomeAction.EnterNormal) ∧
      feedKeys kmChord [] [keyG, keyG] =
        ([Action.Home HomeAction.EnterNormal], [keyG, keyG]) ∧
      (feedKeys kmChord [] [keyG, keyG]).2 ≠ []) ∧
    (lookupSeq kmMid [keyA, keyB] = some actA ∧
      feedKeys kmMid [] [keyA, keyB] = ([actC], [keyA]) ∧
      actA ∉ (feedKeys kmMid [] [keyA, keyB]).1) ∧
    (lookupSeq kmPre [keyA, keyB, keyC] = some actA ∧
      feedKeys kmPre [] [keyA, keyB, keyC] = ([actC, actA], [keyA, keyB, keyC]) ∧
      (feedKeys kmPre [] [keyA, keyB, keyC]).1 ≠ [actA]) := by
  refine ⟨⟨by decide, by decide, by decide, by decide⟩,
    ⟨by decide, by decide, by decide⟩, ⟨by decide, by decide, by decide⟩⟩

/-- Counterexample to C6 as stated: with only the chord `[g, g]` configured
and `x` pending, pressing `g` makes the appended buffer `[x, g]`, which
matches nothing and is not a prefix of any configured sequence; the spec's
policy would discard the oldest key and keep `[g]`, but the implementation
keeps the whole buffer `[x, g]`. -/
theorem resolver_discard_cex :
    resolveKeyEvent kmChord [keyX] keyG = ([], [keyX, keyG]) ∧
    specResolveKey kmChord [keyX] keyG = ([], [keyG]) ∧
    resolveKeyEvent kmChord [keyX] keyG ≠ specResolveKey kmChord [keyX] keyG := by
  refine ⟨by decide, by decide, by decide⟩

/-- Claim C6 as amended: the resolver never discards buffered keys.  When the
appended buffer matches no configured sequence — in particular even when it
is not a prefix of any configured sequence — the key is appended and the
whole buffer is kept pending (it is cleared only by `Tick`). -/
theorem resolver_keeps_whole_buffer (km : Keymap) (buf : List Key) (k : Key)
    (h1 : lookupSeq km [k] = none)
    (h2 : lookupSeq km (buf ++ [k]) = none)
    (_h3 : specIsPrefixOfSome km (buf ++ [k]) = false) :
    resolveKeyEvent km buf k = ([], buf ++ [k]) :=
  resolveKeyEvent_none km buf k h1 h2

/-- Witness for the amended C6 at the counterexample's configuration. -/
theorem resolver_keeps_whole_buffer_witness :
    resolveKeyEvent kmChord [keyX] keyG = ([], [keyX] ++ [keyG]) :=
  resolver_keeps_whole_buffer kmChord [keyX] keyG (by decide) (by decide) (by decide)

/-- Counterexample to C4 as stated: the round-trip fails on two of the named
variants.  `Engine.Error(msg)` encodes its message with `Debug` quoting، so
decoding returns the quoted message, not the original; `Home.NavigateList`
encodes as `NavigateList.Left` (dot form), which the decoder cannot parse —
decoding the encoded form panics. -/
theorem roundtrip_cex :
    decode (encodeAction (Action.Engine (EngineAction.Error "x"))) =
      DecodeResult.ok (Action.Engine (EngineAction.Error "\"x\"")) ∧
    DecodeResult.ok (Action.Engine (EngineAction.Error "\"x\"")) ≠
      DecodeResult.ok (Action.Engine (EngineAction.Error "x")) ∧
    decode (encodeAction (Action.Home (HomeAction.NavigateList ListNavDirection.Left))) =
      DecodeResult.panicked "index out of bounds: the len is 1 but the index is 1" := by
  refine ⟨by decide, by decide, by decide⟩

/-- Claim C5 (code bug): decoding is not total — on an input beginning with
`NavigateList` that lacks a parenthesized argument, `split(&['(', ')'])`
yields a single segment and the unchecked `parts[1]` panics instead of
returning a descriptive error. -/
theorem decode_navigatelist_panics :
    decode "Home.NavigateList".data =
      DecodeResult.panicked "index out of bounds: the len is 1 but the index is 1" ∧
    decode "Home.NavigateList.Left".data =
      DecodeResult.panicked "index out of bounds: the len is 1 but the index is 1" := by
  constructor <;> decide

/-- A successful `processAction` leaves the loop state exactly
`engineApply a st` (the fan-out cannot touch the loop-owned state). -/
theorem processAction_state {σ : Type} (upd : σ → Action → Except String (σ × Option Action))
    (drawC : σ → Except String Unit) (st : LoopState) (comps : List σ) (a : Action)
    (st1 : LoopState) (comps1 : List σ) (newActs : List Action)
    (h : processAction upd drawC st comps a = Except.ok (st1, comps1, newActs)) :
    st1 = engineApply a st := by
  simp only [processAction] at h
  cases hf : fanout upd comps a with
  | error e => rw [hf] at h; simp at h
  | ok r =>
    obtain ⟨c2, f2⟩ := r
    rw [hf] at h
    simp only [Except.ok.injEq, Prod.mk.injEq] at h
    exact h.1.symm

/-- The mode component of `engineApply`: only `ChangeMode` writes it. -/
theorem engineApply_mode (a : Action) (st : LoopState) :
    (engineApply a st).mode = modeFold [a] st.mode := by
  cases a with
  | Engine e => cases e <;> rfl
  | Home h => rfl

/-- The mode left by a completed drain is the `ChangeMode` fold of the
processed actions: component updates cannot write the loop's mode (the drain
threads the loop state only through `engineApply`). -/
theorem drainG_mode {σ : Type} (upd : σ → Action → Except String (σ × Option Action))
    (drawC : σ → Except String Unit) :
    ∀ (fuel : Nat) (st : LoopState) (comps : List σ) (q : List Action)
      (st' : LoopState) (comps' : List σ) (proc enq : List Action),
      drainG upd drawC fuel st comps q = DrainOut.ok st' comps' proc enq →
      st'.mode = modeFold proc st.mode := by
  intro fuel
  induction fuel with
  | zero =>
    intro st comps q st' comps' proc enq h
    cases q with
    | nil =>
      simp only [drainG, DrainOut.ok.injEq] at h
      obtain ⟨rfl, -, hproc, -⟩ := h
      subst hproc
      rfl
    | cons a rest => simp [drainG] at h
  | succ f ih =>
    intro st comps q st' comps' proc enq h
    cases q with
    | nil =>
      simp only [drainG, DrainOut.ok.injEq] at h
      obtain ⟨rfl, -, hproc, -⟩ := h
      subst hproc
      rfl
    | cons a rest =>
      simp only [drainG] at h
      cases hp : processAction upd drawC st comps a with
      | error e => simp [hp] at h
      | ok r =>
        obtain ⟨st1, comps1, newActs⟩ := r
        simp only [hp] at h
        cases hd : drainG upd drawC f st1 comps1 (rest ++ newActs) with
        | ok st2 comps2 proc2 enq2 =>
          simp only [hd, DrainOut.ok.injEq] at h
          obtain ⟨rfl, -, hproc, -⟩ := h
          subst hproc
          have hm := ih st1 comps1 (rest ++ newActs) st2 comps2 proc2 enq2 hd
          have hst1 : st1 = engineApply a st :=
            processAction_state upd drawC st comps a st1 comps1 newActs hp
          subst hst1
          rw [hm, engineApply_mode]
          simp [modeFold]
        | fail e => simp [hd] at h
        | outOfFuel => simp [hd] at h

/-- Claim C8: a `ChangeMode(m)` processed during a drain pass is applied to
the loop's mode immediately, so the mode entering the next iteration is the
`ChangeMode` fold of the drained batch, and the next iteration's `Key`
resolution looks up that mode's keybinding table.  No key resolution happens
inside a drain pass at all: `drainG` does not consult the configuration
(it does not even take it as an argument), so no `Key` resolution of the
already-started batch can use the new table. -/
theorem changemode_takes_effect (fuel : Nat) (st : LoopState) (comps : List Comp)
    (q : List Action) (st' : LoopState) (comps' : List Comp) (proc enq : List Action)
    (h : drainC fuel st comps q = DrainOut.ok st' comps' proc enq) :
    st'.mode = modeFold proc st.mode ∧
    ∀ (cfg : Config) (k : Key) (km : Keymap),
      configGet cfg st'.mode = some km →
      eventStep cfg st' (Event.Key k) =
        ({ st' with buffer := (resolveKeyEvent km st'.buffer k).2 },
          (resolveKeyEvent km st'.buffer k).1) := by
  constructor
  · exact drainG_mode updateCompE drawCompE fuel st comps q st' comps' proc enq h
  · intro cfg k km hkm
    simp [eventStep, hkm]

/-- Witness for C8: draining a `ChangeMode(Home)` switches the loop from
`MainMenu` to `Home`, and the next iteration's key resolution uses the
`Home` table. -/
theorem changemode_takes_effect_witness :
    ({ demoState with mode := Mode.Home } : LoopState).mode =
      modeFold [Action.Engine (EngineAction.ChangeMode Mode.Home)] demoState.mode ∧
    ∀ (cfg : Config) (k : Key) (km : Keymap),
      configGet cfg ({ demoState with mode := Mode.Home } : LoopState).mode = some km →
      eventStep cfg { demoState with mode := Mode.Home } (Event.Key k) =
        ({ { demoState with mode := Mode.Home } with
            buffer :=
              (resolveKeyEvent km ({ demoState with mode := Mode.Home } : LoopState).buffer k).2 },
          (resolveKeyEvent km ({ demoState with mode := Mode.Home } : LoopState).buffer k).1) :=
  changemode_takes_effect 2 demoState [] [Action.Engine (EngineAction.ChangeMode Mode.Home)]
    { demoState with mode := Mode.Home } [] [Action.Engine (EngineAction.ChangeMode Mode.Home)]
    [] (by decide)

/-- Claim C2: draining the bus is exhaustive per iteration.  If the drain
loop returns (the queue is empty and the loop is about to await the next
terminal event), then every action that was in the queue was processed
(fanned out to every component's `update`), and every action enqueued during
the drain — draw errors and update follow-ups, i.e. every cascaded action B —
was itself processed in the same pass. -/
theorem drain_exhaustive {σ : Type} (upd : σ → Action → Except String (σ × Option Action))
    (drawC : σ → Except String Unit) :
    ∀ (fuel : Nat) (st : LoopState) (comps : List σ) (q : List Action)
      (st' : LoopState) (comps' : List σ) (proc enq : List Action),
      drainG upd drawC fuel st comps q = DrainOut.ok st' comps' proc enq →
      (∀ a ∈ q, a ∈ proc) ∧ (∀ b ∈ enq, b ∈ proc) := by
  intro fuel
  induction fuel with
  | zero =>
    intro st comps q st' comps' proc enq h
    cases q with
    | nil => simp only [drainG] at h; cases h; simp
    | cons a rest => simp [drainG] at h
  | succ f ih =>
    intro st comps q st' comps' proc enq h
    cases q with
    | nil => simp only [drainG] at h; cases h; simp
    | cons a rest =>
      simp only [drainG] at h
      cases hp : processAction upd drawC st comps a with
      | error e => simp [hp] at h
      | ok r =>
        obtain ⟨st1, comps1, newActs⟩ := r
        simp only [hp] at h
        cases hd : drainG upd drawC f st1 comps1 (rest ++ newActs) with
        | ok st2 comps2 proc2 enq2 =>
          simp only [hd, DrainOut.ok.injEq] at h
          obtain ⟨-, -, hproc, henq⟩ := h
          subst hproc
          subst henq
          obtain ⟨h1, h2⟩ := ih st1 comps1 (rest ++ newActs) st2 comps2 proc2 enq2 hd
          constructor
          · intro x hx
            rcases List.mem_cons.mp hx with rfl | hx'
            · exact List.mem_cons_self _ _
            · exact List.mem_cons_of_mem _ (h1 x (List.mem_append_left _ hx'))
          · intro b hb
            rcases List.mem_append.mp hb with hb' | hb'
            · exact List.mem_cons_of_mem _ (h1 b (List.mem_append_right _ hb'))
            · exact List.mem_cons_of_mem _ (h2 b hb')
        | fail e => simp [hd] at h
        | outOfFuel => simp [hd] at h

/-- Witness for C2: a component that cascades `Quit` out of `Refresh`; both
the original queued action and the cascaded one appear in the processed list
of the same drain pass. -/
theorem drain_exhaustive_witness :
    (∀ a ∈ [Action.Engine EngineAction.Refresh],
      a ∈ [Action.Engine EngineAction.Refresh, Action.Engine EngineAction.Quit]) ∧
    (∀ b ∈ [Action.Engine EngineAction.Quit],
      b ∈ [Action.Engine EngineAction.Refresh, Action.Engine EngineAction.Quit]) :=
  drain_exhaustive demoUpd demoDraw 3 demoState [0] [Action.Engine EngineAction.Refresh]
    { demoState with shouldQuit := true } [2]
    [Action.Engine EngineAction.Refresh, Action.Engine EngineAction.Quit]
    [Action.Engine EngineAction.Quit] (by decide)

/-- Counterexample to C3 as stated: a failing `update` is NOT converted into
an `Error` action — it propagates through `?` and aborts the drain loop (and
`App::run`). -/
theorem update_failure_aborts_cex :
    drainG failUpd (fun _ => Except.ok ()) 2 demoState [()]
        [Action.Engine EngineAction.Refresh] =
      DrainOut.fail "update failed" := by
  decide

/-- Claim C3 as amended: a failure returned by a component's `draw` during a
`Render` (or `Resize`) dispatch is converted into an `Error("Failed to draw:
...")` action enqueued on the bus, and processing still succeeds — whereas a
failure returned by a component's `update` aborts the loop (see the
counterexample). -/
theorem draw_failure_converted {σ : Type} (upd : σ → Action → Except String (σ × Option Action))
    (drawC : σ → Except String Unit) (st : LoopState) (comps comps' : List σ)
    (fus : List Action) (c : σ) (msg : String)
    (hc : c ∈ comps) (hdraw : drawC c = Except.error msg)
    (hfan : fanout upd comps (Action.Engine EngineAction.Render) = Except.ok (comps', fus)) :
    processAction upd drawC st comps (Action.Engine EngineAction.Render) =
      Except.ok (st, comps', drawErrs drawC comps ++ fus) ∧
    Action.Engine (EngineAction.Error ("Failed to draw: " ++ msg)) ∈ drawErrs drawC comps := by
  constructor
  · simp only [processAction, hfan]
    rfl
  · simp only [drawErrs, List.mem_filterMap]
    exact ⟨c, hc, by rw [hdraw]⟩

/-- Witness for the amended C3: a roster containing a component whose `draw`
fails; the corresponding `Error` action is enqueued and the dispatch of
`Render` returns successfully. -/
theorem draw_failure_converted_witness :
    (processAction okUpd failDraw demoState [()] (Action.Engine EngineAction.Render) =
      Except.ok (demoState, [()], drawErrs failDraw [()] ++ [])) ∧
    Action.Engine (EngineAction.Error ("Failed to draw: " ++ "boom")) ∈ drawErrs failDraw [()] :=
  draw_failure_converted okUpd failDraw demoState [()] [()] [] () "boom"
    (by simp) rfl rfl

/-- Claim C7: processing `Suspend` sets the loop to `Suspending`
(`should_suspend`); the post-drain suspend handling emits `Resume` as the sole
queued action (the drain only ends on an empty bus), so the very next action
processed is the loop-emitted `Resume`; processing it returns the loop to
`Running` (`should_suspend` cleared, everything else untouched); and neither
`Suspend` nor `Resume` alters any registered component's private state or
produces a follow-up. -/
theorem suspend_resume (st : LoopState) (comps : List Comp) :
    (engineApply (Action.Engine EngineAction.Suspend) st).shouldSuspend = true ∧
    suspendStep (engineApply (Action.Engine EngineAction.Suspend) st) =
      [Action.Engine EngineAction.Resume] ∧
    engineApply (Action.Engine EngineAction.Resume)
        (engineApply (Action.Engine EngineAction.Suspend) st) =
      { st with shouldSuspend := false } ∧
    fanout updateCompE comps (Action.Engine EngineAction.Suspend) = Except.ok (comps, []) ∧
    fanout updateCompE comps (Action.Engine EngineAction.Resume) = Except.ok (comps, []) ∧
    (∀ (fuel : Nat) (evs : List Action) (st2 : LoopState) (comps2 : List Comp)
        (proc enq : List Action),
      drainC fuel (engineApply (Action.Engine EngineAction.Suspend) st) comps
          (suspendStep (engineApply (Action.Engine EngineAction.Suspend) st) ++ evs) =
        DrainOut.ok st2 comps2 proc enq →
      proc.head? = some (Action.Engine EngineAction.Resume)) := by
  have hsus : ∀ c, updateComp c (Action.Engine EngineAction.Suspend) = (c, none) :=
    fun c => updateComp_ignores c _ (by simp) (by simp) (by simp)
  have hres : ∀ c, updateComp c (Action.Engine EngineAction.Resume) = (c, none) :=
    fun c => updateComp_ignores c _ (by simp) (by simp) (by simp)
  refine ⟨rfl, by simp [suspendStep, engineApply], rfl,
    fanout_ignores _ comps hsus, fanout_ignores _ comps hres, ?_⟩
  intro fuel evs st2 comps2 proc enq h
  have hq : suspendStep (engineApply (Action.Engine EngineAction.Suspend) st) ++ evs =
      Action.Engine EngineAction.Resume :: evs := by
    simp [suspendStep, engineApply]
  rw [hq] at h
  cases fuel with
  | zero => simp [drainC, drainG] at h
  | succ f =>
    simp only [drainC, drainG] at h
    cases hp : processAction updateCompE drawCompE
        (engineApply (Action.Engine EngineAction.Suspend) st) comps
        (Action.Engine EngineAction.Resume) with
    | error e => simp [hp] at h
    | ok r =>
      obtain ⟨st1, comps1, newActs⟩ := r
      simp only [hp] at h
      cases hd : drainG updateCompE drawCompE f st1 comps1 (evs ++ newActs) with
      | ok st3 comps3 proc3 enq3 =>
        simp only [hd, DrainOut.ok.injEq] at h
        obtain ⟨-, -, hproc, -⟩ := h
        subst hproc
        rfl
      | fail e => simp [hd] at h
      | outOfFuel => simp [hd] at h

/-- Witness for C7 at a concrete suspended run: one `Resume` in the queue
followed by a `Tick` event action; `Resume` is processed first. -/
theorem suspend_resume_witness :
    List.head? [Action.Engine EngineAction.Resume, Action.Engine EngineAction.Tick] =
      some (Action.Engine EngineAction.Resume) := by
  have h := (suspend_resume demoState []).2.2.2.2.2
  exact h 3 [Action.Engine EngineAction.Tick]
    { demoState with shouldSuspend := false } [] _ [] (by decide)

/-! ### Codec helper lemmas -/

/-- Characters of differing digit-ness are unequal under `==`. -/
theorem char_beq_false_of_isDigit_ne (c d : Char) (h : isDigit c ≠ isDigit d) :
    (c == d) = false := by
  rw [beq_eq_false_iff_ne]
  rintro rfl
  exact h rfl

/-- ASCII digits are not whitespace. -/
theorem isWhite_eq_false (c : Char) (h : isDigit c = true) : isWhite c = false := by
  simp only [isWhite, Bool.or_eq_false_iff]
  refine ⟨⟨⟨?_, ?_⟩, ?_⟩, ?_⟩ <;> (rw [beq_eq_false_iff_ne]; rintro rfl; revert h; decide)

/-- `digitChar` produces decimal digits. -/
theorem isDigit_digitChar (d : Nat) (h : d < 10) : isDigit (digitChar d) = true := by
  interval_cases d <;> decide

/-- `digitVal` inverts `digitChar` on decimal digits. -/
theorem digitVal_digitChar (d : Nat) (h : d < 10) : digitVal (digitChar d) = d := by
  interval_cases d <;> decide

/-- The decimal rendering worker yields a non-empty, all-digit string whose
decimal value is the rendered number, whenever the fuel exceeds the number. -/
theorem natToCharsFuel_spec (fuel : Nat) : ∀ n < fuel,
    natToCharsFuel fuel n ≠ [] ∧
    (∀ c ∈ natToCharsFuel fuel n, isDigit c = true) ∧
    (natToCharsFuel fuel n).foldl (fun acc c => 10 * acc + digitVal c) 0 = n := by
  induction fuel with
  | zero => intro n hn; omega
  | succ f ih =>
    intro n hn
    by_cases h10 : n < 10
    · simp only [natToCharsFuel, if_pos h10]
      refine ⟨by simp, ?_, ?_⟩
      · intro c hc
        simp only [List.mem_singleton] at hc
        subst hc
        exact isDigit_digitChar n h10
      · simp [digitVal_digitChar n h10]
    · have hdiv : n / 10 < f := by omega
      obtain ⟨hne, hdig, hval⟩ := ih (n / 10) hdiv
      simp only [natToCharsFuel, if_neg h10]
      refine ⟨by simp, ?_, ?_⟩
      · intro c hc
        rcases List.mem_append.mp hc with hc | hc
        · exact hdig c hc
        · simp only [List.mem_singleton] at hc
          subst hc
          exact isDigit_digitChar (n % 10) (by omega)
      · rw [List.foldl_append, hval]
        simp only [List.foldl_cons, List.foldl_nil, digitVal_digitChar (n % 10) (by omega)]
        omega

/-- The decimal rendering of `n` is non-empty, all digits, and evaluates back
to `n`. -/
theorem natToChars_spec (n : Nat) :
    natToChars n ≠ [] ∧ (∀ c ∈ natToChars n, isDigit c = true) ∧
    (natToChars n).foldl (fun acc c => 10 * acc + digitVal c) 0 = n :=
  natToCharsFuel_spec (n + 1) n (by omega)

/-- `u16` parsing inverts decimal rendering within range. -/
theorem parseU16_natToChars (n : Nat) (h : n ≤ 65535) :
    parseU16 (natToChars n) = some n := by
  obtain ⟨hne, hdig, hval⟩ := natToChars_spec n
  have hall : (natToChars n).all isDigit = true := by simpa using hdig
  simp [parseU16, hne, hall, hval, h]

/-- A string starts with itself followed by anything. -/
theorem isPre_append (p s : List Char) : isPre p (p ++ s) = true := by
  induction p with
  | nil => rfl
  | cons c p ih => simp [isPre, ih]

/-- The first occurrence of `sep` in `sep ++ s` is at the front. -/
theorem findSplit_prefix (sep s : List Char) :
    findSplit sep (sep ++ s) = some ([], s) := by
  rw [findSplit.eq_def]
  simp [isPre_append, List.drop_left]

/-- `sep` does not occur in a string missing its first character. -/
theorem findSplit_not_mem (c : Char) (p s : List Char) (h : c ∉ s) :
    findSplit (c :: p) s = none := by
  induction s with
  | nil => rfl
  | cons d rest ih =>
    have hcd : c ≠ d := fun e => h (e ▸ List.mem_cons_self d rest)
    have hpre : isPre (c :: p) (d :: rest) = false := by
      simp [isPre, beq_eq_false_iff_ne.mpr hcd]
    have hrest := ih (fun hm => h (List.mem_cons_of_mem _ hm))
    simp [findSplit, hpre, hrest]

/-- `split(sep).nth(1)` after a leading separator returns the remainder when
the separator occurs nowhere else. -/
theorem splitNth1_of_prefix (sep rest : List Char) (h : findSplit sep rest = none) :
    splitNth1 sep (sep ++ rest) = rest := by
  simp [splitNth1, findSplit_prefix, h]

/-- `trim_start_matches` is the identity when the pattern is not a prefix. -/
theorem trimStartSeqFuel_no (sep s : List Char) (h : isPre sep s = false) :
    ∀ f, trimStartSeqFuel f sep s = s := by
  intro f
  cases f with
  | zero => rfl
  | succ f => simp [trimStartSeqFuel, h]

/-- `trim_start_matches` strips exactly one leading occurrence when the
remainder does not start with the pattern again. -/
theorem trimStartSeq_strip (c : Char) (p rest : List Char)
    (h : isPre (c :: p) rest = false) :
    trimStartSeq (c :: p) ((c :: p) ++ rest) = rest := by
  have hstep : trimStartSeq (c :: p) ((c :: p) ++ rest) =
      trimStartSeqFuel (((c :: p) ++ rest).length) (c :: p) ((c :: p) ++ rest) := rfl
  have hlen : ((c :: p) ++ rest).length = (p ++ rest).length + 1 := by simp
  rw [hstep, hlen]
  have hcond : (c :: p) ≠ [] ∧ isPre (c :: p) ((c :: p) ++ rest) = true :=
    ⟨by simp, isPre_append _ _⟩
  simp only [trimStartSeqFuel, if_pos hcond]
  rw [List.drop_left]
  exact trimStartSeqFuel_no _ _ h _

/-- `trim_end_matches` removes a trailing separator character. -/
theorem trimEnd_append_sep (c : Char) (xs : List Char) :
    trimEndMatches c (xs ++ [c]) = trimEndMatches c xs := by
  simp [trimEndMatches, List.dropWhile_cons]

/-- `trim_end_matches` keeps a trailing non-separator character. -/
theorem trimEnd_append_ne (c d : Char) (xs : List Char) (h : (d == c) = false) :
    trimEndMatches c (xs ++ [d]) = xs ++ [d] := by
  simp [trimEndMatches, List.dropWhile_cons, h]

/-- `split` on a string without separators yields a single segment. -/
theorem splitOnPred_no (p : Char → Bool) (s : List Char) (h : ∀ c ∈ s, p c = false) :
    splitOnPred p s = [s] := by
  induction s with
  | nil => rfl
  | cons c rest ih =>
    have hc := h c (List.mem_cons_self c rest)
    have hr := ih (fun x hx => h x (List.mem_cons_of_mem _ hx))
    simp [splitOnPred, hc, hr]

/-- Prepending separator-free characters extends the first segment. -/
theorem splitOnPred_append (p : Char → Bool) (A s x : List Char) (xs : List (List Char))
    (hA : ∀ c ∈ A, p c = false) (h : splitOnPred p s = x :: xs) :
    splitOnPred p (A ++ s) = (A ++ x) :: xs := by
  induction A with
  | nil => simpa using h
  | cons c A ih =>
    have hc := hA c (List.mem_cons_self c A)
    have hr := ih (fun y hy => hA y (List.mem_cons_of_mem _ hy))
    simp [splitOnPred, hc, hr]

/-- `dropWhile` is the identity when no element satisfies the predicate. -/
theorem dropWhile_all_false (q : Char → Bool) (l : List Char)
    (h : ∀ c ∈ l, q c = false) : l.dropWhile q = l := by
  cases l with
  | nil => rfl
  | cons c rest => simp [List.dropWhile_cons, h c (List.mem_cons_self c rest)]

/-- `trim` is the identity on all-digit strings. -/
theorem trimSpaces_digits (l : List Char) (h : ∀ c ∈ l, isDigit c = true) :
    trimSpaces l = l := by
  have h1 : l.dropWhile isWhite = l :=
    dropWhile_all_false _ _ (fun c hc => isWhite_eq_false c (h c hc))
  have h2 : l.reverse.dropWhile isWhite = l.reverse :=
    dropWhile_all_false _ _ (fun c hc => isWhite_eq_false c (h c (List.mem_reverse.mp hc)))
  simp [trimSpaces, h1, h2]

/-- `trim` strips a single leading space before an all-digit string. -/
theorem trimSpaces_space_digits (l : List Char) (h : ∀ c ∈ l, isDigit c = true) :
    trimSpaces (' ' :: l) = l := by
  have h0 : (' ' :: l).dropWhile isWhite = l.dropWhile isWhite := by
    simp [List.dropWhile_cons, show isWhite ' ' = true from rfl]
  have h1 : l.dropWhile isWhite = l :=
    dropWhile_all_false _ _ (fun c hc => isWhite_eq_false c (h c hc))
  have h2 : l.reverse.dropWhile isWhite = l.reverse :=
    dropWhile_all_false _ _ (fun c hc => isWhite_eq_false c (h c (List.mem_reverse.mp hc)))
  simp [trimSpaces, h0, h1, h2]

/-- `split` pulls off an empty segment at a separator character. -/
theorem splitOnPred_sep (p : Char → Bool) (c : Char) (s : List Char) (h : p c = true) :
    splitOnPred p (c :: s) = [] :: splitOnPred p s := by
  simp [splitOnPred, h]

set_option maxHeartbeats 1000000 in
/-- Decoding the encoded form of `Engine.Resize(w, h)` recovers the action. -/
theorem decode_encode_resize (w h : Nat) (hw : w ≤ 65535) (hh : h ≤ 65535) :
    decode (encodeAction (Action.Engine (EngineAction.Resize w h))) =
      DecodeResult.ok (Action.Engine (EngineAction.Resize w h)) := by
  obtain ⟨hneA, hdigA, -⟩ := natToChars_spec w
  obtain ⟨hneB, hdigB, -⟩ := natToChars_spec h
  set A := natToChars w with hAdef
  set B := natToChars h with hBdef
  set mid : List Char := A ++ (", ".data ++ (B ++ [')'])) with hmid
  set rest : List Char := "Resize(".data ++ mid with hrest
  have hErest : 'E' ∉ rest := by
    intro hm
    rw [hrest, hmid] at hm
    simp only [List.mem_append] at hm
    rcases hm with hm | hm | hm | hm | hm
    · exact absurd hm (by decide)
    · exact absurd (hdigA _ hm) (by decide)
    · exact absurd hm (by decide)
    · exact absurd (hdigB _ hm) (by decide)
    · exact absurd hm (by decide)
  have hsub : splitNth1 "Engine.".data ("Engine.".data ++ rest) = rest := by
    apply splitNth1_of_prefix
    have hE : "Engine.".data = 'E' :: "ngine.".data := rfl
    rw [hE]
    exact findSplit_not_mem 'E' _ rest hErest
  have henc : encodeAction (Action.Engine (EngineAction.Resize w h)) =
      "Engine.".data ++ rest := rfl
  rw [henc]
  have hpre1 : isPre "Engine.".data ("Engine.".data ++ rest) = true := isPre_append _ _
  simp only [decode, hpre1, if_pos, hsub]
  -- now inside decodeEngine with substr = rest = "Resize(" ++ mid
  rw [hrest]
  simp only [decodeEngine]
  rw [if_neg (by simp), if_neg (by simp), if_neg (by simp), if_neg (by simp),
    if_neg (by simp), if_neg (by simp), if_neg (by simp),
    if_neg (by simp [isPre]), if_pos (by simp [isPre] : isPre "Resize(".data ("Resize(".data ++ mid) = true)]
  -- strip the "Resize(" prefix
  have hmidpre : isPre "Resize(".data mid = false := by
    obtain ⟨d, t, hA⟩ : ∃ d t, A = d :: t := by
      cases hA' : A with
      | nil => exact absurd hA' hneA
      | cons d t => exact ⟨d, t, rfl⟩
    have hd : isDigit d = true := hdigA d (by rw [hA]; exact List.mem_cons_self d t)
    rw [hmid, hA]
    simp [isPre, char_beq_false_of_isDigit_ne 'R' d (by rw [hd]; decide)]
  have hstrip : trimStartSeq "Resize(".data ("Resize(".data ++ mid) = mid := by
    have hR : "Resize(".data = 'R' :: "esize(".data := rfl
    rw [hR]
    exact trimStartSeq_strip 'R' _ mid (by rw [← hR]; exact hmidpre)
  rw [hstrip]
  -- remove the trailing parenthesis
  obtain ⟨B', dl, hB⟩ : ∃ B' dl, B = B' ++ [dl] := by
    rcases List.eq_nil_or_concat B with hB | ⟨B', dl, hB⟩
    · exact absurd hB hneB
    · exact ⟨B', dl, by rw [hB, List.concat_eq_append]⟩
  have hdl : isDigit dl = true := hdigB dl (by rw [hB]; simp)
  have htrim : trimEndMatches ')' mid = A ++ (", ".data ++ B) := by
    have hshape : mid = (A ++ (", ".data ++ B)) ++ [')'] := by
      rw [hmid]; simp [List.append_assoc]
    rw [hshape, trimEnd_append_sep]
    have hshape2 : A ++ (", ".data ++ B) = (A ++ (", ".data ++ B')) ++ [dl] := by
      rw [hB]; simp [List.append_assoc]
    rw [hshape2, trimEnd_append_ne ')' dl _ (char_beq_false_of_isDigit_ne dl ')' (by rw [hdl]; decide)),
      ← hshape2]
  rw [htrim]
  -- split on the comma
  have hsplit : splitOnPred (fun c => c == ',') (A ++ (", ".data ++ B)) =
      [A, ' ' :: B] := by
    have hin : splitOnPred (fun c => c == ',') (", ".data ++ B) = [] :: [' ' :: B] := by
      have hcomma : ", ".data ++ B = ',' :: (' ' :: B) := by rfl
      rw [hcomma]
      have hnosep : ∀ c ∈ (' ' :: B), (c == ',') = false := by
        intro c hc
        rcases List.mem_cons.mp hc with rfl | hc
        · decide
        · exact char_beq_false_of_isDigit_ne c ',' (by rw [hdigB c hc]; decide)
      rw [splitOnPred_sep _ ',' _ (by decide), splitOnPred_no _ _ hnosep]
    have hnoA : ∀ c ∈ A, (c == ',') = false := fun c hc =>
      char_beq_false_of_isDigit_ne c ',' (by rw [hdigA c hc]; decide)
    have := splitOnPred_append (fun c => c == ',') A (", ".data ++ B) [] [' ' :: B] hnoA hin
    simpa using this
  rw [hsplit]
  -- two parts; trim and parse each
  have hlen : ([A, ' ' :: B] : List (List Char)).length = 2 := by simp
  rw [if_pos hlen]
  simp only [List.getD_cons_zero, List.getD_cons_succ]
  rw [trimSpaces_digits A hdigA, trimSpaces_space_digits B hdigB, hAdef, hBdef,
    parseU16_natToChars w hw, parseU16_natToChars h hh]

/-- Claim C4 as amended: decode-after-encode recovers the action for every
variant of the decoder's textual grammar except `Engine.Error` (whose message
is `Debug`-quoted by `Display`, so decoding keeps the quotes) and
`Home.NavigateList` (encoded in dot form, which the decoder cannot parse);
`Engine.Resize(w, h)` round-trips for all `u16` arguments, and every
plain-named grammar variant round-trips. -/
theorem roundtrip_grammar (w h : Nat) (hw : w ≤ 65535) (hh : h ≤ 65535) :
    decode (encodeAction (Action.Engine (EngineAction.Resize w h))) =
      DecodeResult.ok (Action.Engine (EngineAction.Resize w h)) ∧
    ∀ a ∈ grammarPlain, decode (encodeAction a) = DecodeResult.ok a := by
  refine ⟨decode_encode_resize w h hw hh, by decide⟩

/-- Witness for the amended C4 at `Resize(80, 24)`. -/
theorem roundtrip_grammar_witness :
    decode (encodeAction (Action.Engine (EngineAction.Resize 80 24))) =
      DecodeResult.ok (Action.Engine (EngineAction.Resize 80 24)) ∧
    ∀ a ∈ grammarPlain, decode (encodeAction a) = DecodeResult.ok a :=
  roundtrip_grammar 80 24 (by decide) (by decide)

end Theorems

end RatApp
